import Mathlib

/-!
# Verification of the page-view tracking and aggregation core

Shallow embedding of the session-tracking/aggregation pipeline of a
browser-history extension:

* `lib/types.ts` — the `PageViewSession`, `PageView`, `UserSettings` records.
* the storage module (`normalizeUrl`, `savePageViewSession`, `tryMergeSession`,
  `calculateTotalDuration`, `recalculatePageViewDuration`, `deletePageView`,
  `deletePageViewData`, `cleanupOldPageViewData`, `optimizePageViewStorage`,
  `findAndMergeSimilarUrls`, `calculatePathSimilarity`,
  `calculateStringSimilarity`, the hourly-distribution loop of
  `getTimeStatsByDateRange`).
* `entrypoints/background.ts` — the `handlePageDeactivated` and
  `handleSessionUpdate` message handlers.
* the content-side `TimeTracker.normalizeUrl`.

JavaScript numbers are modelled as `Int` (millisecond timestamps) and `ℚ`
(second durations); the host's WHATWG URL parser is modelled by a simplified
`parseURL` capturing the `scheme://host[:port][/path][?query][#hash]` shape.
Asynchronous storage operations are modelled as pure functions on a store
snapshot (`List PageView`).
-/

/-! ## Data model (`lib/types.ts`) -/

/-- `PageViewSession`: one contiguous interval of user attention on a page,
with millisecond timestamps. -/
structure Session where
  startTime : Int
  endTime : Int
  active : Bool
deriving DecidableEq, Repr, Inhabited

/-- `PageView`: the aggregate record for one logical page. `totalDuration`
is in seconds. -/
structure PageView where
  url : String
  normalizedUrl : String
  hostname : String
  pageTitle : Option String
  faviconUrl : Option String
  sessions : List Session
  totalDuration : ℚ
  lastVisited : Int
  firstVisited : Int
deriving DecidableEq, Repr, Inhabited

/-- The subset of `UserSettings` consulted by the background message
handlers. -/
structure UserSettings where
  trackPageViewDuration : Bool
  excludedDomains : List String
deriving DecidableEq, Repr, Inhabited

/-- One entry of the background's in-memory `activePageSessions` map. -/
structure ActiveSession where
  url : String
  normalizedUrl : String
  startTime : Int
  pageTitle : Option String
  faviconUrl : Option String
deriving DecidableEq, Repr, Inhabited

/-! ## URL parsing (model of the host's `new URL`)

The extension relies on the browser's WHATWG URL parser.  We model the
fragment of its behaviour the code depends on: splitting
`scheme://host[:port][/path][?search][#hash]`, failing (throwing, i.e.
returning `none`) when the separator is absent, the scheme is empty or
contains an illegal character, or the host is empty.  As in the platform,
`search` retains its leading `?` and `hash` its leading `#`, and a missing
path is reported as `/`. -/

/-- Components of a parsed URL. -/
structure URLParts where
  scheme : List Char
  hostname : List Char
  port : List Char
  pathname : List Char
  search : List Char
  hash : List Char
deriving DecidableEq, Repr, Inhabited

/-- Characters legal in a URL scheme. -/
def isSchemeChar (c : Char) : Bool :=
  c.isAlphanum || c == '+' || c == '-' || c == '.'

/-- Split a character list at the first `://`, failing if the first `:` is
not followed by `//` (in which case the scheme would be ill-formed anyway). -/
def splitScheme : List Char → Option (List Char × List Char)
  | [] => none
  | c :: rest =>
    if c = ':' then
      match rest with
      | c1 :: c2 :: rest2 =>
        if c1 = '/' ∧ c2 = '/' then some ([], rest2) else none
      | _ => none
    else (splitScheme rest).map (fun p => (c :: p.1, p.2))

/-- Model of `new URL(s)`: `none` when the platform parser would throw. -/
def parseURL (s : String) : Option URLParts :=
  match splitScheme s.toList with
  | none => none
  | some (scheme, rest) =>
    if scheme = [] then none
    else if ¬ (scheme.all isSchemeChar) then none
    else
      let authority := rest.takeWhile (fun c => !(c == '/' || c == '?' || c == '#'))
      let afterAuthority := rest.dropWhile (fun c => !(c == '/' || c == '?' || c == '#'))
      let hostname := authority.takeWhile (fun c => !(c == ':'))
      let port := (authority.dropWhile (fun c => !(c == ':'))).drop 1
      if hostname = [] then none
      else
        let pathRaw := afterAuthority.takeWhile (fun c => !(c == '?' || c == '#'))
        let pathname := if pathRaw = [] then ['/'] else pathRaw
        let afterPath := afterAuthority.dropWhile (fun c => !(c == '?' || c == '#'))
        let search := afterPath.takeWhile (fun c => !(c == '#'))
        let hash := afterPath.dropWhile (fun c => !(c == '#'))
        some ⟨scheme, hostname, port, pathname, search, hash⟩

/-! ## The two URL normalizers -/

/-- Storage-side `normalizeUrl` (storage module):
`` `${url.protocol}//${url.hostname}${url.pathname}` `` with the raw string
returned unchanged when parsing fails.  Note: the port is dropped and the
pathname is kept verbatim (no trailing-slash trimming). -/
def normalizeUrl (urlString : String) : String :=
  match parseURL urlString with
  | some url => String.mk (url.scheme ++ ':' :: '/' :: '/' :: (url.hostname ++ url.pathname))
  | none => urlString

/-- `replace(/\/$/, '')`: drop one trailing slash if present. -/
def stripOneTrailingSlash (l : List Char) : List Char :=
  if l.getLast? = some '/' then l.dropLast else l

/-- JS `url.origin` (modulo default-port elision, which no claim exercises):
`scheme://hostname[:port]`. -/
def urlOrigin (u : URLParts) : List Char :=
  u.scheme ++ ':' :: '/' :: '/' :: u.hostname ++
    (if u.port = [] then [] else ':' :: u.port)

/-- Content-side `TimeTracker.normalizeUrl` on its default call path
(`keepQueryParams = []`, `keepHash = false`, so the query/hash-retention
branches are skipped): `origin` plus the pathname with the trailing slash
removed except for the root path, falling back to the raw string when
parsing fails.  The memoization cache is semantically transparent and is
not modelled. -/
def trackerNormalizeUrl (url : String) : String :=
  match parseURL url with
  | none => url
  | some u =>
    let path := if u.pathname = ['/'] then ['/'] else stripOneTrailingSlash u.pathname
    String.mk (urlOrigin u ++ path)

/-- The normalized form described by the spec's words: "build
`origin + pathname` (trailing slash trimmed except for the root `/`)".
Stated separately from the code-derived normalizers so that each can be
compared against it. -/
def specNormalizedUrl (u : URLParts) : String :=
  String.mk (urlOrigin u ++ (if u.pathname = ['/'] then ['/'] else stripOneTrailingSlash u.pathname))

/-! ## Durations and session merging (storage module) -/

/-- `(session.endTime - session.startTime) / 1000`: duration in seconds. -/
def durationSec (s : Session) : ℚ :=
  ((s.endTime - s.startTime : Int) : ℚ) / 1000

/-- `calculateTotalDuration`: reduce over the sessions, adding each duration
when it is positive (negative durations contribute nothing). -/
def calculateTotalDuration (sessions : List Session) : ℚ :=
  sessions.foldl
    (fun total session =>
      total + (if durationSec session > 0 then durationSec session else 0)) 0

/-- Index selected by `[...existingSessions].sort((a, b) => b.endTime - a.endTime)[0]`:
the first position (JS sort is stable) holding the maximal `endTime`. -/
def mostRecentIdx : List Session → Nat
  | [] => 0
  | [_] => 0
  | s :: r :: t =>
    let i := mostRecentIdx (r :: t)
    if ((r :: t).getD i default).endTime ≤ s.endTime then 0 else i + 1

/-- `tryMergeSession`.  The source mutates the most-recent session object in
place and returns whether a merge occurred; we return the updated list
paired with that flag.  The final "same browsing flow" check of the source
returns `false` on every path and is therefore modelled by falling through
to `(existingSessions, false)`. -/
def tryMergeSession (existingSessions : List Session) (newSession : Session) :
    List Session × Bool :=
  match existingSessions with
  | [] => ([], false)
  | _ :: _ =>
    let i := mostRecentIdx existingSessions
    let mostRecentSession := existingSessions.getD i default
    let timeBetweenSessions := newSession.startTime - mostRecentSession.endTime
    if 0 ≤ timeBetweenSessions ∧ timeBetweenSessions ≤ 30000 then
      (existingSessions.set i
        { mostRecentSession with
          endTime := max mostRecentSession.endTime newSession.endTime
          active := mostRecentSession.active || newSession.active }, true)
    else if newSession.startTime ≤ mostRecentSession.endTime ∧
        mostRecentSession.startTime ≤ newSession.endTime then
      (existingSessions.set i
        { startTime := min mostRecentSession.startTime newSession.startTime
          endTime := max mostRecentSession.endTime newSession.endTime
          active := mostRecentSession.active || newSession.active }, true)
    else
      (existingSessions, false)

/-! ## `savePageViewSession` and the other store mutations -/

/-- JS truthiness of an optional string (`undefined` and `""` are falsy). -/
def strFalsy : Option String → Prop
  | none => True
  | some s => s = ""

instance : DecidablePred strFalsy := by
  intro o; cases o <;> simp [strFalsy] <;> infer_instance

/-- Index returned by `Array.prototype.find` (as a position, so that the
source's in-place mutation of the found element can be modelled by
`List.set`). -/
def findFirstIdx (p : PageView → Bool) : List PageView → Option Nat
  | [] => none
  | pv :: rest => if p pv then some 0 else (findFirstIdx p rest).map (· + 1)

/-- `if (pageTitle && (!pageView.pageTitle || pageView.pageTitle.length <
pageTitle.length))`: prefer longer titles. -/
def backfillTitle (pv : PageView) (pageTitle : Option String) : PageView :=
  match pageTitle with
  | some t =>
    if t ≠ "" ∧ (strFalsy pv.pageTitle ∨ (pv.pageTitle.getD "").length < t.length) then
      { pv with pageTitle := some t }
    else pv
  | none => pv

/-- `if (faviconUrl && !pageView.faviconUrl)`: first-seen favicon wins. -/
def backfillFavicon (pv : PageView) (faviconUrl : Option String) : PageView :=
  match faviconUrl with
  | some f =>
    if f ≠ "" ∧ strFalsy pv.faviconUrl then { pv with faviconUrl := some f } else pv
  | none => pv

/-- The `if (pageView)` branch of `savePageViewSession`: merge or append the
session, update `totalDuration`, bump `lastVisited`, and opportunistically
backfill title and favicon. -/
def updateExistingPageView (pageView : PageView) (session : Session)
    (sessionDuration : ℚ) (currentTime : Int)
    (pageTitle faviconUrl : Option String) : PageView :=
  let merged := tryMergeSession pageView.sessions session
  let pv1 :=
    if merged.2 then
      { pageView with
        sessions := merged.1
        totalDuration := calculateTotalDuration merged.1 }
    else
      { pageView with
        sessions := pageView.sessions ++ [session]
        totalDuration := pageView.totalDuration + sessionDuration }
  backfillFavicon (backfillTitle { pv1 with lastVisited := currentTime } pageTitle) faviconUrl

/-- The `else` branch of `savePageViewSession`: a fresh `PageView`. -/
def createPageView (url : String) (u : URLParts) (session : Session)
    (sessionDuration : ℚ) (currentTime : Int)
    (pageTitle faviconUrl : Option String) : PageView :=
  { url := url
    normalizedUrl := normalizeUrl url
    hostname := String.mk u.hostname
    pageTitle := pageTitle
    faviconUrl := faviconUrl
    sessions := [session]
    totalDuration := sessionDuration
    lastVisited := currentTime
    firstVisited := currentTime }

/-- `savePageViewSession` as a pure step on a snapshot of the stored
`PageView` list.  `new URL(url)` throwing (parse failure) is caught by the
function's outer `try`, leaving the store untouched; sessions shorter than
0.5 s are skipped. -/
def savePageViewSession (store : List PageView) (url : String)
    (session : Session) (faviconUrl pageTitle : Option String)
    (currentTime : Int) : List PageView :=
  match parseURL url with
  | none => store
  | some urlObject =>
    let normalized := normalizeUrl url
    let sessionDuration := durationSec session
    if sessionDuration < 1/2 then store
    else
      match findFirstIdx (fun pv => pv.normalizedUrl == normalized) store with
      | some j =>
        store.set j
          (updateExistingPageView (store.getD j default) session sessionDuration
            currentTime pageTitle faviconUrl)
      | none =>
        store ++ [createPageView url urlObject session sessionDuration currentTime
          pageTitle faviconUrl]

/-- `deletePageView`: filters on the record's original `url` field against
the normalized argument. -/
def deletePageView (url : String) (store : List PageView) : List PageView :=
  let normalized := normalizeUrl url
  store.filter (fun pv => !(pv.url == normalized))

/-- `deletePageViewData` (main-store part): filters on `normalizedUrl`. -/
def deletePageViewData (url : String) (store : List PageView) : List PageView :=
  let normalized := normalizeUrl url
  store.filter (fun pv => !(pv.normalizedUrl == normalized))

/-- `recalculatePageViewDuration`: recompute `totalDuration` of the page view
with the given normalized URL from its sessions. -/
def recalculatePageViewDuration (store : List PageView) (normalized : String) :
    List PageView :=
  match findFirstIdx (fun pv => pv.normalizedUrl == normalized) store with
  | none => store
  | some j =>
    let pageView := store.getD j default
    store.set j { pageView with totalDuration := calculateTotalDuration pageView.sessions }

/-- `cleanupOldPageViewData` (main-store part): drop sessions whose
`startTime` precedes `now - maxAgeDays` days, drop page views left with no
sessions, recompute `totalDuration`. -/
def cleanupPageView (cutoffTimestamp : Int) (pageView : PageView) :
    Option PageView :=
  let filteredSessions := pageView.sessions.filter
    (fun session => decide (cutoffTimestamp ≤ session.startTime))
  if filteredSessions = [] then none
  else some
    { pageView with
      sessions := filteredSessions
      totalDuration := calculateTotalDuration filteredSessions }

/-- `cleanupOldPageViewData`, assembled from `cleanupPageView`. -/
def cleanupOldPageViewData (now maxAgeDays : Int) (store : List PageView) :
    List PageView :=
  let cutoffTimestamp := now - maxAgeDays * 86400000
  store.filterMap (cleanupPageView cutoffTimestamp)

/-! ## Compaction (`optimizePageViewStorage`) -/

/-- Calendar-day grouping key of a session: the `toISOString` date prefix,
modelled as the UTC day number of `startTime`. -/
def dayKey (s : Session) : Int := Int.fdiv s.startTime 86400000

/-- Distinct keys in first-appearance order (JS object keys preserve
insertion order for these string keys). -/
def dedupKeys (l : List Int) : List Int :=
  l.foldl (fun acc k => if k ∈ acc then acc else acc ++ [k]) []

/-- Collapse one day's sessions into a single session spanning the earliest
start and the latest end, active when any was. -/
def mergeDaySessions : List Session → Session
  | [] => default
  | g :: gs =>
    { startTime := gs.foldl (fun m s => min m s.startTime) g.startTime
      endTime := gs.foldl (fun m s => max m s.endTime) g.endTime
      active := (g :: gs).any (·.active) }

/-- `optimizePageViewStorage` (main-store part): per page view, merge the
sessions older than the threshold day-by-day and recompute
`totalDuration`; page views with at most one old session are untouched. -/
def optimizePageView (thresholdTimestamp : Int) (pageView : PageView) : PageView :=
  let recentSessions := pageView.sessions.filter
    (fun s => decide (thresholdTimestamp ≤ s.startTime))
  let oldSessions := pageView.sessions.filter
    (fun s => decide (s.startTime < thresholdTimestamp))
  if oldSessions.length ≤ 1 then pageView
  else
    let mergedOldSessions := (dedupKeys (oldSessions.map dayKey)).map
      (fun k => mergeDaySessions (oldSessions.filter (fun s => dayKey s == k)))
    { pageView with
      sessions := mergedOldSessions ++ recentSessions
      totalDuration := calculateTotalDuration (mergedOldSessions ++ recentSessions) }

/-- `optimizePageViewStorage`, assembled from `optimizePageView`. -/
def optimizePageViewStorage (now thresholdDays : Int) (store : List PageView) :
    List PageView :=
  let thresholdTimestamp := now - thresholdDays * 86400000
  store.map (optimizePageView thresholdTimestamp)

/-! ## Background message handlers (`entrypoints/background.ts`) -/

/-- Payload of a `PAGE_DEACTIVATED` message; `sessionData` is `none` when the
field is missing. -/
structure PageDeactivatedData where
  url : String
  sessionData : Option Session
deriving DecidableEq, Repr, Inhabited

/-- Payload of a `SESSION_UPDATE` message. -/
structure SessionUpdateData where
  url : String
  normalizedUrl : String
  sessionData : Option Session
deriving DecidableEq, Repr, Inhabited

/-- Boolean substring test, modelling JS `String.prototype.includes`. -/
def charsHaveLead : List Char → List Char → Bool
  | [], _ => true
  | _ :: _, [] => false
  | a :: as, b :: bs => a == b && charsHaveLead as bs

/-- `haystack.includes(needle)`. -/
def strIncludes (haystack needle : String) : Bool :=
  let rec go : List Char → Bool
    | [] => charsHaveLead needle.toList []
    | c :: t => charsHaveLead needle.toList (c :: t) || go t
  go haystack.toList

/-- `settings.trackPageViewDuration && !(settings.excludedDomains &&
settings.excludedDomains.some(domain => url.includes(domain)))`. -/
def shouldTrack (settings : UserSettings) (url : String) : Bool :=
  settings.trackPageViewDuration &&
    !(settings.excludedDomains.any (fun domain => strIncludes url domain))

/-- JS `a || b` where `a` is a possibly-missing string (empty string falsy). -/
def jsOrStr (a : Option String) (b : String) : String :=
  match a with
  | some s => if s = "" then b else s
  | none => b

/-- JS `a || b` on two possibly-missing strings. -/
def jsOrOpt (a b : Option String) : Option String :=
  match a with
  | some s => if s = "" then b else some s
  | none => b

/-- Lookup in the `activePageSessions` map (modelled as an association
list keyed by tab id). -/
def mapLookup (m : List (Int × ActiveSession)) (tabId : Int) :
    Option ActiveSession :=
  (m.find? (fun kv => kv.1 == tabId)).map (·.2)

/-- `activePageSessions.set(tabId, v)`. -/
def mapSet (m : List (Int × ActiveSession)) (tabId : Int) (v : ActiveSession) :
    List (Int × ActiveSession) :=
  if m.any (fun kv => kv.1 == tabId) then
    m.map (fun kv => if kv.1 == tabId then (tabId, v) else kv)
  else m ++ [(tabId, v)]

/-- `activePageSessions.delete(tabId)`. -/
def mapDelete (m : List (Int × ActiveSession)) (tabId : Int) :
    List (Int × ActiveSession) :=
  m.filter (fun kv => !(kv.1 == tabId))

/-- `handlePageDeactivated`, returning the updated store snapshot and
active-session map.  `docTitle` stands for the ambient `document.title`
read on the title-fallback path. -/
def handlePageDeactivated (tabId : Int) (data : PageDeactivatedData)
    (faviconUrl : Option String) (docTitle : String)
    (settings : UserSettings) (store : List PageView)
    (activePageSessions : List (Int × ActiveSession)) (currentTime : Int) :
    List PageView × List (Int × ActiveSession) :=
  let activeSession := mapLookup activePageSessions tabId
  match data.sessionData with
  | none => (store, activePageSessions)
  | some sessionData =>
    if sessionData.endTime < sessionData.startTime then
      (store, activePageSessions)
    else if ¬ (shouldTrack settings data.url = true) then
      (store, mapDelete activePageSessions tabId)
    else
      let sessionDuration := durationSec sessionData
      if 1/2 ≤ sessionDuration then
        let pageTitle := jsOrStr (activeSession.bind (·.pageTitle)) docTitle
        let pageFaviconUrl := jsOrOpt faviconUrl (activeSession.bind (·.faviconUrl))
        (savePageViewSession store data.url sessionData pageFaviconUrl
          (some pageTitle) currentTime,
          mapDelete activePageSessions tabId)
      else
        (store, mapDelete activePageSessions tabId)

/-- `handleSessionUpdate`: persist a partial session, then roll the active
session's `startTime` forward (or create/correct the map entry). -/
def handleSessionUpdate (tabId : Int) (data : SessionUpdateData)
    (faviconUrl : Option String) (settings : UserSettings)
    (store : List PageView)
    (activePageSessions : List (Int × ActiveSession)) (currentTime : Int) :
    List PageView × List (Int × ActiveSession) :=
  let activeSession := mapLookup activePageSessions tabId
  match data.sessionData with
  | none => (store, activePageSessions)
  | some sessionData =>
    if sessionData.endTime < sessionData.startTime then
      (store, activePageSessions)
    else if ¬ (shouldTrack settings data.url = true) then
      (store, activePageSessions)
    else
      let sessionDuration := durationSec sessionData
      if 1/2 ≤ sessionDuration then
        let pageTitle := activeSession.bind (·.pageTitle)
        let pageFaviconUrl := jsOrOpt faviconUrl (activeSession.bind (·.faviconUrl))
        let store2 := savePageViewSession store data.url sessionData pageFaviconUrl
          pageTitle currentTime
        let map2 :=
          match activeSession with
          | some a =>
            if a.url = data.url then
              mapSet activePageSessions tabId { a with startTime := sessionData.endTime }
            else
              mapSet activePageSessions tabId
                { url := data.url
                  normalizedUrl := data.normalizedUrl
                  startTime := sessionData.endTime
                  pageTitle := jsOrOpt pageTitle a.pageTitle
                  faviconUrl := pageFaviconUrl }
          | none =>
            mapSet activePageSessions tabId
              { url := data.url
                normalizedUrl := data.normalizedUrl
                startTime := sessionData.endTime
                pageTitle := pageTitle
                faviconUrl := pageFaviconUrl }
        (store2, map2)
      else
        (store, activePageSessions)

/-! ## Hour-of-day distribution

The walking loop shared verbatim by `getTimeStatsByDateRange`,
`getDomainStatistics` and `PageViewAnalyzer.getTimeByHourOfDay`: advance
`currentTime` from the session's start to its end in hour-aligned steps,
crediting `min((min(hourEnd, endTime) - currentTime)/1000, 3600)` seconds to
the current hour's bucket.  Hour boundaries are modelled in UTC (the source
uses the environment's local clock via `Date#getHours`/`setHours`), with
timestamps as `Nat` milliseconds. -/

/-- Hour-of-day of a millisecond timestamp. -/
def hourOfTs (t : Nat) : Fin 24 :=
  ⟨t / 3600000 % 24, Nat.mod_lt _ (by norm_num)⟩

/-- `hourEnd.setHours(hour + 1, 0, 0, 0)`: the next hour boundary. -/
def nextHourBoundary (t : Nat) : Nat := (t / 3600000 + 1) * 3600000

theorem lt_nextHourBoundary (t : Nat) : t < nextHourBoundary t := by
  have h := Nat.div_add_mod t 3600000
  have hm : t % 3600000 < 3600000 := Nat.mod_lt _ (by norm_num)
  unfold nextHourBoundary
  omega

/-- The while-loop of the hourly distribution, acting on the 24 buckets. -/
def distributeSessionHours (currentTime endTime : Nat) (buckets : Fin 24 → ℚ) :
    Fin 24 → ℚ :=
  if currentTime < endTime then
    let hourEnd := nextHourBoundary currentTime
    let timeInHour : ℚ :=
      min (((min hourEnd endTime - currentTime : Nat) : ℚ) / 1000) 3600
    let buckets2 : Fin 24 → ℚ := fun i =>
      if i = hourOfTs currentTime then buckets i + timeInHour else buckets i
    distributeSessionHours hourEnd endTime buckets2
  else buckets
termination_by endTime - currentTime
decreasing_by
  exact Nat.sub_lt_sub_left (by assumption) (lt_nextHourBoundary currentTime)

/-! ## URL path similarity (`calculatePathSimilarity` and friends) -/

/-- `/^\d+$/.test(str)`. -/
def isAllDigits (s : List Char) : Bool :=
  !s.isEmpty && s.all (·.isDigit)

/-- Levenshtein distance.  The source fills the standard
`(len1+1) × (len2+1)` dynamic-programming matrix; this recursion computes
the same `matrix[str1.length][str2.length]` entry (deletion, insertion,
substitution with cost 0/1). -/
def levDist : List Char → List Char → Nat
  | [], b => b.length
  | a :: as, [] => (a :: as).length
  | a :: as, b :: bs =>
    let cost : Nat := if a = b then 0 else 1
    min (min (levDist as (b :: bs) + 1) (levDist (a :: as) bs + 1))
      (levDist as bs + cost)
termination_by a b => a.length + b.length
decreasing_by all_goals (simp [List.length_cons]; try omega)

/-- `calculateStringSimilarity`: numeric-segment short-circuit, exact and
case-insensitive matches, then `1 - distance / maxLength`. -/
def calculateStringSimilarity (str1 str2 : List Char) : ℚ :=
  if str1.length = 0 then (if str2.length = 0 then 1 else 0)
  else if str2.length = 0 then 0
  else if isAllDigits str1 && isAllDigits str2 then 3/10
  else if str1 = str2 then 1
  else if str1.map Char.toLower = str2.map Char.toLower then 9/10
  else 1 - (levDist str1 str2 : ℚ) / (max str1.length str2.length : Nat)

/-- `path.split('/')` (the raw split; empty pieces included). -/
def splitOnSlashAux (cur : List Char) : List Char → List (List Char)
  | [] => [cur.reverse]
  | c :: t =>
    if c = '/' then cur.reverse :: splitOnSlashAux [] t
    else splitOnSlashAux (c :: cur) t

/-- `path.split('/').filter(Boolean)`. -/
def pathSegments (path : List Char) : List (List Char) :=
  (splitOnSlashAux [] path).filter (fun seg => !seg.isEmpty)

/-- The segment-matching loop of `calculatePathSimilarity`: equal segments
count 1, similar segments (`> 0.5`) count their similarity, and the loop
breaks at the first significant difference. -/
def matchingSegmentsScore : List (List Char) → List (List Char) → ℚ
  | s1 :: t1, s2 :: t2 =>
    if s1 = s2 then 1 + matchingSegmentsScore t1 t2
    else
      let similarity := calculateStringSimilarity s1 s2
      if similarity > 1/2 then similarity + matchingSegmentsScore t1 t2
      else 0
  | _, _ => 0

/-- `calculatePathSimilarity`. -/
def calculatePathSimilarity (path1 path2 : List Char) : ℚ :=
  let normalizedPath1 := stripOneTrailingSlash path1
  let normalizedPath2 := stripOneTrailingSlash path2
  if normalizedPath1 = normalizedPath2 then 1
  else
    let segments1 := pathSegments normalizedPath1
    let segments2 := pathSegments normalizedPath2
    if (segments1 = [] ∧ segments2 ≠ []) ∨ (segments2 = [] ∧ segments1 ≠ []) then 0
    else
      matchingSegmentsScore segments1 segments2 /
        (max segments1.length segments2.length : Nat)

/-- The similarity filter of `findAndMergeSimilarUrls`: another page view on
the same hostname is auto-merged when its pathname scores `> 0.8` against
the primary one. -/
def isSimilarUrlCandidate (hostname1 hostname2 path1 path2 : List Char) : Bool :=
  hostname1 == hostname2 && decide (calculatePathSimilarity path1 path2 > 8/10)

/-! ## C7: path similarity values -/

/-- C7: `calculatePathSimilarity "/post/123" "/post/123/"` is `1` (the two
paths agree after trailing-slash normalization), while
`calculatePathSimilarity "/post/123" "/post/456"` scores below the `0.8`
auto-merge threshold of `findAndMergeSimilarUrls` (the differing numeric
segments contribute only `0.3`, which breaks the matching loop), so the two
ID-variant pages are not auto-merge candidates even on the same hostname. -/
theorem pathSimilarity_trailing_slash_and_numeric_ids :
    calculatePathSimilarity "/post/123".toList "/post/123/".toList = 1
    ∧ calculatePathSimilarity "/post/123".toList "/post/456".toList < 8/10
    ∧ isSimilarUrlCandidate "a.com".toList "a.com".toList
        "/post/123".toList "/post/456".toList = false := by
  have h : calculatePathSimilarity "/post/123".toList "/post/456".toList = 1/2 := by
    simp +decide [calculatePathSimilarity, pathSegments, splitOnSlashAux,
      stripOneTrailingSlash, matchingSegmentsScore, calculateStringSimilarity, isAllDigits]
    norm_num
  refine ⟨by decide, ?_, ?_⟩
  · rw [h]; norm_num
  · simp only [isSimilarUrlCandidate, h, Bool.and_eq_false_iff]
    right
    simp only [decide_eq_false_iff_not]
    norm_num

/-! ## C6: the two URL normalizers -/

/-- C6 counterexample: for the successfully-parsing URL
`https://a.com/x/`, the storage-side `normalizeUrl` keeps the trailing
slash, so it does **not** return "origin + pathname with the trailing slash
trimmed" as the claim asserts of both implementations. -/
theorem normalizeUrl_trailing_slash_counterexample :
    parseURL "https://a.com/x/" =
      some ⟨"https".toList, "a.com".toList, [], "/x/".toList, [], []⟩
    ∧ specNormalizedUrl ⟨"https".toList, "a.com".toList, [], "/x/".toList, [], []⟩ =
        "https://a.com/x"
    ∧ normalizeUrl "https://a.com/x/" = "https://a.com/x/"
    ∧ normalizeUrl "https://a.com/x/" ≠
        specNormalizedUrl ⟨"https".toList, "a.com".toList, [], "/x/".toList, [], []⟩ := by
  refine ⟨by decide, by decide, by decide, by decide⟩

/-- C6 amended: on every URL that parses, the content-side
`TimeTracker.normalizeUrl` returns origin + pathname with the trailing
slash trimmed except for the root path (the spec's normal form), while the
storage-side `normalizeUrl` returns `protocol + "//" + hostname + pathname`
with the pathname untouched (port dropped, no trailing-slash trimming); on
every URL that fails to parse, both return the raw input unchanged. -/
theorem normalize_characterization :
    (∀ s u, parseURL s = some u → trackerNormalizeUrl s = specNormalizedUrl u)
    ∧ (∀ s u, parseURL s = some u →
        normalizeUrl s =
          String.mk (u.scheme ++ ':' :: '/' :: '/' :: (u.hostname ++ u.pathname)))
    ∧ (∀ s, parseURL s = none → trackerNormalizeUrl s = s ∧ normalizeUrl s = s) := by
  refine ⟨?_, ?_, ?_⟩
  · intro s u h
    simp [trackerNormalizeUrl, specNormalizedUrl, h]
  · intro s u h
    simp [normalizeUrl, h]
  · intro s h
    exact ⟨by simp [trackerNormalizeUrl, h], by simp [normalizeUrl, h]⟩

/-- Witness for `normalize_characterization` at the concrete URLs
`https://a.com:8080/x/` (parses) and `not a url` (fails to parse). -/
theorem normalize_characterization_witness :
    (parseURL "https://a.com:8080/x/" =
      some ⟨"https".toList, "a.com".toList, "8080".toList, "/x/".toList, [], []⟩)
    ∧ trackerNormalizeUrl "https://a.com:8080/x/" =
        specNormalizedUrl ⟨"https".toList, "a.com".toList, "8080".toList, "/x/".toList, [], []⟩
    ∧ (parseURL "not a url" = none)
    ∧ (trackerNormalizeUrl "not a url" = "not a url" ∧ normalizeUrl "not a url" = "not a url") := by
  have h1 : parseURL "https://a.com:8080/x/" =
      some ⟨"https".toList, "a.com".toList, "8080".toList, "/x/".toList, [], []⟩ := by decide
  have h2 : parseURL "not a url" = none := by decide
  exact ⟨h1, normalize_characterization.1 _ _ h1, h2, normalize_characterization.2.2 _ h2⟩

/-! ## Basic facts about the merge machinery -/

/-- Notation-free accessor for `sortedSessions[0]` of `tryMergeSession`. -/
def mostRecentSessionOf (l : List Session) : Session :=
  l.getD (mostRecentIdx l) default

theorem mostRecentIdx_lt_length :
    ∀ (l : List Session), l ≠ [] → mostRecentIdx l < l.length := by
  intro l
  induction l with
  | nil => intro h; exact absurd rfl h
  | cons s t ih =>
    intro _
    cases t with
    | nil => simp [mostRecentIdx]
    | cons r t' =>
      simp only [mostRecentIdx]
      split
      · simp
      · have := ih (by simp)
        simpa [Nat.succ_lt_succ_iff] using this

/-- `mostRecentSessionOf` really is a session of maximal `endTime`. -/
theorem endTime_le_mostRecent :
    ∀ (l : List Session), ∀ s ∈ l, s.endTime ≤ (mostRecentSessionOf l).endTime := by
  intro l
  induction l with
  | nil => intro s hs; simp at hs
  | cons x t ih =>
    intro s hs
    cases t with
    | nil =>
      simp at hs
      simp [mostRecentSessionOf, mostRecentIdx, hs]
    | cons r t' =>
      simp only [mostRecentSessionOf, mostRecentIdx]
      split
      · rename_i hle
        simp only [List.getD_cons_zero]
        rcases List.mem_cons.mp hs with h | h
        · exact h ▸ le_refl _
        · exact le_trans (ih s h) hle
      · rename_i hgt
        push_neg at hgt
        simp only [List.getD_cons_succ]
        rcases List.mem_cons.mp hs with h | h
        · exact h ▸ le_of_lt hgt
        · exact ih s h

theorem backfillTitle_sessions (pv : PageView) (t : Option String) :
    (backfillTitle pv t).sessions = pv.sessions := by
  cases t <;> simp [backfillTitle] <;> split <;> rfl

theorem backfillTitle_totalDuration (pv : PageView) (t : Option String) :
    (backfillTitle pv t).totalDuration = pv.totalDuration := by
  cases t <;> simp [backfillTitle] <;> split <;> rfl

theorem backfillFavicon_sessions (pv : PageView) (f : Option String) :
    (backfillFavicon pv f).sessions = pv.sessions := by
  cases f <;> simp [backfillFavicon] <;> split <;> rfl

theorem backfillFavicon_totalDuration (pv : PageView) (f : Option String) :
    (backfillFavicon pv f).totalDuration = pv.totalDuration := by
  cases f <;> simp [backfillFavicon] <;> split <;> rfl

/-- Sessions after the merge-or-append step. -/
theorem updateExistingPageView_sessions (pv : PageView) (s : Session) (d : ℚ)
    (now : Int) (t f : Option String) :
    (updateExistingPageView pv s d now t f).sessions =
      if (tryMergeSession pv.sessions s).2 = true then (tryMergeSession pv.sessions s).1
      else pv.sessions ++ [s] := by
  unfold updateExistingPageView
  rw [backfillFavicon_sessions, backfillTitle_sessions]
  split <;> simp_all

/-- Total duration after the merge-or-append step. -/
theorem updateExistingPageView_totalDuration (pv : PageView) (s : Session) (d : ℚ)
    (now : Int) (t f : Option String) :
    (updateExistingPageView pv s d now t f).totalDuration =
      if (tryMergeSession pv.sessions s).2 = true then
        calculateTotalDuration (tryMergeSession pv.sessions s).1
      else pv.totalDuration + d := by
  unfold updateExistingPageView
  rw [backfillFavicon_totalDuration, backfillTitle_totalDuration]
  split <;> simp_all

/-! ## C2: merge boundary -/

/-- C2: `tryMergeSession` merges precisely into the most recent session (the
one with the largest `endTime`), exactly when the gap between that session's
`endTime` and the new session's `startTime` lies in `[0 ms, 30000 ms]` or
the two intervals overlap; in particular a gap of exactly 30000 ms merges
(one entry remains) and a gap of 30001 ms does not (the save step leaves two
entries). -/
theorem tryMergeSession_boundary :
    (∀ (l : List Session) (n : Session), l ≠ [] →
      ((tryMergeSession l n).2 = true ↔
        (0 ≤ n.startTime - (mostRecentSessionOf l).endTime ∧
          n.startTime - (mostRecentSessionOf l).endTime ≤ 30000) ∨
        (n.startTime ≤ (mostRecentSessionOf l).endTime ∧
          (mostRecentSessionOf l).startTime ≤ n.endTime)))
    ∧ (∀ (l : List Session), ∀ s ∈ l, s.endTime ≤ (mostRecentSessionOf l).endTime)
    ∧ (∀ s n : Session, n.startTime - s.endTime = 30000 →
        (tryMergeSession [s] n).2 = true ∧ (tryMergeSession [s] n).1.length = 1)
    ∧ (∀ (pv : PageView) (s n : Session) (d : ℚ) (now : Int) (t f : Option String),
        pv.sessions = [s] → n.startTime - s.endTime = 30001 →
        tryMergeSession [s] n = ([s], false) ∧
        (updateExistingPageView pv n d now t f).sessions = [s, n]) := by
  refine ⟨?_, endTime_le_mostRecent, ?_, ?_⟩
  · intro l n hl
    cases l with
    | nil => exact absurd rfl hl
    | cons x t =>
      simp only [tryMergeSession, mostRecentSessionOf]
      split
      · rename_i h1
        simpa using Or.inl h1
      · rename_i h1
        split
        · rename_i h2
          simpa using Or.inr h2
        · rename_i h2
          simp only [Bool.false_eq_true, false_iff]
          intro hor
          rcases hor with h | h
          · exact h1 h
          · exact h2 h
  · intro s n h
    have hc : 0 ≤ n.startTime - s.endTime ∧ n.startTime - s.endTime ≤ 30000 := by omega
    simp only [tryMergeSession, mostRecentIdx, List.getD_cons_zero]
    rw [if_pos hc]
    exact ⟨rfl, by simp⟩
  · intro pv s n d now t f hsess hgap
    have hc1 : ¬(0 ≤ n.startTime - s.endTime ∧ n.startTime - s.endTime ≤ 30000) := by omega
    have hc2 : ¬(n.startTime ≤ s.endTime ∧ s.startTime ≤ n.endTime) := by omega
    have hmerge : tryMergeSession [s] n = ([s], false) := by
      simp only [tryMergeSession, mostRecentIdx, List.getD_cons_zero]
      rw [if_neg hc1, if_neg hc2]
    refine ⟨hmerge, ?_⟩
    rw [updateExistingPageView_sessions, hsess, hmerge]
    simp

/-- Witness for `tryMergeSession_boundary` at concrete sessions: an existing
session ending at 1000 ms, a new one starting at 31000 ms (gap exactly
30000 ms, merges into one entry) and one starting at 31001 ms (gap 30001 ms,
save leaves two entries). -/
theorem tryMergeSession_boundary_witness :
    ((⟨0, 1000, false⟩ : Session) ∈ ([⟨0, 1000, false⟩] : List Session)) ∧
    (tryMergeSession [⟨0, 1000, false⟩] ⟨31000, 40000, true⟩).2 = true ∧
    (tryMergeSession [⟨0, 1000, false⟩] ⟨31000, 40000, true⟩).1.length = 1 ∧
    tryMergeSession [⟨0, 1000, false⟩] ⟨31001, 40000, true⟩ = ([⟨0, 1000, false⟩], false) ∧
    (updateExistingPageView
      ⟨"u", "u", "h", none, none, [⟨0, 1000, false⟩], 1, 0, 0⟩
      ⟨31001, 40000, true⟩ (8999/1000) 99 none none).sessions =
      [⟨0, 1000, false⟩, ⟨31001, 40000, true⟩] := by
  have h30000 := tryMergeSession_boundary.2.2.1 ⟨0, 1000, false⟩ ⟨31000, 40000, true⟩ (by decide)
  have h30001 := tryMergeSession_boundary.2.2.2
    ⟨"u", "u", "h", none, none, [⟨0, 1000, false⟩], 1, 0, 0⟩
    ⟨0, 1000, false⟩ ⟨31001, 40000, true⟩ (8999/1000) 99 none none rfl (by decide)
  exact ⟨by decide, h30000.1, h30000.2, h30001.1, h30001.2⟩

/-! ## C4: hour-bucket conservation -/

theorem nextHourBoundary_sub_le (t : Nat) : nextHourBoundary t - t ≤ 3600000 := by
  have h : (t / 3600000) * 3600000 ≤ t := Nat.div_mul_le_self t 3600000
  unfold nextHourBoundary
  omega

/-- Crediting one bucket raises the bucket total by exactly the credit. -/
theorem sum_bucket_update (acc : Fin 24 → ℚ) (h0 : Fin 24) (x : ℚ) :
    (∑ i, if i = h0 then acc i + x else acc i) = (∑ i, acc i) + x := by
  have hsplit : ∀ i : Fin 24,
      (if i = h0 then acc i + x else acc i) = acc i + (if i = h0 then x else 0) := by
    intro i; split <;> simp
  simp only [hsplit]
  rw [Finset.sum_add_distrib, Finset.sum_ite_eq' Finset.univ h0 (fun _ => x)]
  simp

theorem distributeSessionHours_sum_aux :
    ∀ (fuel cur endT : Nat), endT - cur ≤ fuel → cur ≤ endT → ∀ acc : Fin 24 → ℚ,
      (∑ i, distributeSessionHours cur endT acc i) =
        (∑ i, acc i) + ((endT - cur : Nat) : ℚ) / 1000 := by
  intro fuel
  induction fuel with
  | zero =>
    intro cur endT hf hle acc
    have heq : endT = cur := by omega
    subst heq
    rw [distributeSessionHours]
    simp
  | succ fuel ih =>
    intro cur endT hf hle acc
    by_cases hce : cur < endT
    · rw [distributeSessionHours, if_pos hce]
      have hnb := lt_nextHourBoundary cur
      have hcap := nextHourBoundary_sub_le cur
      have hmin_le : min (nextHourBoundary cur) endT - cur ≤ 3600000 := by omega
      have hcapQ : ((min (nextHourBoundary cur) endT - cur : Nat) : ℚ) / 1000 ≤ 3600 := by
        rw [div_le_iff (by norm_num : (0:ℚ) < 1000)]
        calc ((min (nextHourBoundary cur) endT - cur : Nat) : ℚ) ≤ 3600000 := by
              exact_mod_cast hmin_le
          _ = 3600 * 1000 := by norm_num
      have htime :
          min (((min (nextHourBoundary cur) endT - cur : Nat) : ℚ) / 1000) 3600 =
            ((min (nextHourBoundary cur) endT - cur : Nat) : ℚ) / 1000 :=
        min_eq_left hcapQ
      by_cases hk : nextHourBoundary cur ≤ endT
      · have hrec := ih (nextHourBoundary cur) endT (by omega) hk
          (fun i => if i = hourOfTs cur then
            acc i + min (((min (nextHourBoundary cur) endT - cur : Nat) : ℚ) / 1000) 3600
          else acc i)
        rw [hrec, sum_bucket_update, htime, Nat.min_eq_left hk]
        have h1 : ((nextHourBoundary cur - cur : Nat) : ℚ) =
            (nextHourBoundary cur : ℚ) - cur := by
          push_cast [Nat.cast_sub (le_of_lt hnb)]; ring
        have h2 : ((endT - nextHourBoundary cur : Nat) : ℚ) =
            (endT : ℚ) - nextHourBoundary cur := by
          push_cast [Nat.cast_sub hk]; ring
        have h3 : ((endT - cur : Nat) : ℚ) = (endT : ℚ) - cur := by
          push_cast [Nat.cast_sub hle]; ring
        rw [h1, h2, h3, add_assoc, div_add_div_same]
        ring_nf
      · push_neg at hk
        have hmin : min (nextHourBoundary cur) endT = endT := Nat.min_eq_right (le_of_lt hk)
        rw [distributeSessionHours, if_neg (by omega : ¬ nextHourBoundary cur < endT)]
        rw [sum_bucket_update, htime, hmin]
    · have heq : endT = cur := by omega
      subst heq
      rw [distributeSessionHours]
      simp

/-- C4: the hour-of-day walking loop conserves a session's duration — the
sum over the 24 hour buckets of the credited contributions equals
`(endTime - startTime) / 1000` seconds (exactly, in the exact-arithmetic
model), for any session with `startTime ≤ endTime`, including sessions
crossing one or more hour boundaries. -/
theorem hourlyDistribution_conserves_duration (startTime endTime : Nat)
    (h : startTime ≤ endTime) :
    (∑ i, distributeSessionHours startTime endTime (fun _ => 0) i) =
      ((endTime - startTime : Nat) : ℚ) / 1000 := by
  rw [distributeSessionHours_sum_aux (endTime - startTime) startTime endTime le_rfl h]
  simp

/-- Witness for `hourlyDistribution_conserves_duration`: a session from
3,000,000 ms to 8,000,000 ms, crossing the hour boundaries at 3,600,000 ms
and 7,200,000 ms. -/
theorem hourlyDistribution_conserves_duration_witness :
    3000000 ≤ 8000000 ∧
    (∑ i, distributeSessionHours 3000000 8000000 (fun _ => 0) i) =
      ((8000000 - 3000000 : Nat) : ℚ) / 1000 :=
  ⟨by norm_num, hourlyDistribution_conserves_duration 3000000 8000000 (by norm_num)⟩

/-! ## C5 and C9: suppression of short and malformed sessions -/

theorem durationSec_lt_half (s : Session) :
    durationSec s < 1/2 ↔ s.endTime - s.startTime < 500 := by
  unfold durationSec
  rw [div_lt_iff₀ (by norm_num : (0:ℚ) < 1000)]
  norm_num
  exact_mod_cast Iff.rfl

/-- C5: a session shorter than 500 ms (duration below 0.5 s) is never
persisted — `savePageViewSession` leaves the store unchanged, and so do the
`PAGE_DEACTIVATED` and `SESSION_UPDATE` background handlers when handed such
a session, whatever the settings, active-session map or metadata. -/
theorem short_session_suppressed
    (store : List PageView) (url url2 nurl : String) (session : Session)
    (fav title : Option String) (now : Int) (tab : Int) (docTitle : String)
    (settings : UserSettings) (amap : List (Int × ActiveSession))
    (h : session.endTime - session.startTime < 500) :
    savePageViewSession store url session fav title now = store
    ∧ (handlePageDeactivated tab ⟨url, some session⟩ fav docTitle settings store amap now).1
        = store
    ∧ (handleSessionUpdate tab ⟨url2, nurl, some session⟩ fav settings store amap now).1
        = store := by
  have hd : durationSec session < 1/2 := (durationSec_lt_half session).mpr h
  have hd2 : ¬ (1/2 ≤ durationSec session) := not_le.mpr hd
  refine ⟨?_, ?_, ?_⟩
  · unfold savePageViewSession
    cases hp : parseURL url
    · rfl
    · simp only [if_pos hd]
  · unfold handlePageDeactivated
    by_cases hv : session.endTime < session.startTime
    · simp [hv]
    · by_cases ht : shouldTrack settings url = true
      · simp [hv, ht]
        rw [if_neg (by simpa using hd2)]
      · simp [hv, ht]
  · unfold handleSessionUpdate
    by_cases hv : session.endTime < session.startTime
    · simp [hv]
    · by_cases ht : shouldTrack settings url2 = true
      · simp [hv, ht]
        rw [if_neg (by simpa using hd2)]
      · simp [hv, ht]

/-- Witness for `short_session_suppressed`: a 499 ms session against a
one-element store. -/
theorem short_session_suppressed_witness :
    ((2000 : Int) - 1501 < 500) ∧
    savePageViewSession
        [⟨"https://a.com/x", "https://a.com/x", "a.com", none, none,
          [⟨0, 1000, true⟩], 1, 0, 0⟩]
        "https://a.com/x" ⟨1501, 2000, true⟩ none none 9999 =
      [⟨"https://a.com/x", "https://a.com/x", "a.com", none, none,
        [⟨0, 1000, true⟩], 1, 0, 0⟩] :=
  ⟨by norm_num,
    (short_session_suppressed
      [⟨"https://a.com/x", "https://a.com/x", "a.com", none, none,
        [⟨0, 1000, true⟩], 1, 0, 0⟩]
      "https://a.com/x" "https://a.com/x" "https://a.com/x" ⟨1501, 2000, true⟩
      none none 9999 7 "t" ⟨true, []⟩ [] (by norm_num)).1⟩

/-- C9: a `PAGE_DEACTIVATED` or `SESSION_UPDATE` message whose session data
is missing or has `endTime < startTime` is discarded before any merge or
aggregation: both the persisted store and the active-session map come back
exactly unchanged. -/
theorem malformed_session_discarded
    (tab : Int) (url nurl : String) (sd : Option Session)
    (fav : Option String) (docTitle : String) (settings : UserSettings)
    (store : List PageView) (amap : List (Int × ActiveSession)) (now : Int)
    (h : sd = none ∨ ∃ s, sd = some s ∧ s.endTime < s.startTime) :
    handlePageDeactivated tab ⟨url, sd⟩ fav docTitle settings store amap now
        = (store, amap)
    ∧ handleSessionUpdate tab ⟨url, nurl, sd⟩ fav settings store amap now
        = (store, amap) := by
  rcases h with h | ⟨s, hs, hlt⟩
  · subst h
    exact ⟨rfl, rfl⟩
  · subst hs
    constructor
    · unfold handlePageDeactivated
      simp [hlt]
    · unfold handleSessionUpdate
      simp [hlt]

/-- Witness for `malformed_session_discarded`: a session with
`endTime = 100 < startTime = 200`, a nonempty store and map. -/
theorem malformed_session_discarded_witness :
    (some (⟨200, 100, true⟩ : Session) = none ∨
      ∃ s, some (⟨200, 100, true⟩ : Session) = some s ∧ s.endTime < s.startTime) ∧
    handlePageDeactivated 3 ⟨"https://a.com/x", some ⟨200, 100, true⟩⟩ none "t"
        ⟨true, []⟩
        [⟨"u", "u", "h", none, none, [⟨0, 1000, true⟩], 1, 0, 0⟩]
        [(3, ⟨"u", "u", 0, none, none⟩)] 999 =
      ([⟨"u", "u", "h", none, none, [⟨0, 1000, true⟩], 1, 0, 0⟩],
        [(3, ⟨"u", "u", 0, none, none⟩)]) :=
  ⟨Or.inr ⟨⟨200, 100, true⟩, rfl, by norm_num⟩,
    (malformed_session_discarded 3 "https://a.com/x" "n" (some ⟨200, 100, true⟩)
      none "t" ⟨true, []⟩
      [⟨"u", "u", "h", none, none, [⟨0, 1000, true⟩], 1, 0, 0⟩]
      [(3, ⟨"u", "u", 0, none, none⟩)] 999
      (Or.inr ⟨⟨200, 100, true⟩, rfl, by norm_num⟩)).1⟩

/-! ## C8: retention cleanup -/

/-- C8: after `cleanupOldPageViewData`, every surviving page view contains
only sessions with `startTime` at or after the cutoff `now - maxAgeDays`
days (no older session remains anywhere), and no page view with an empty
session list survives. -/
theorem cleanupOldPageViewData_retention (now maxAgeDays : Int)
    (store : List PageView) (pv : PageView)
    (h : pv ∈ cleanupOldPageViewData now maxAgeDays store) :
    (∀ s ∈ pv.sessions, now - maxAgeDays * 86400000 ≤ s.startTime)
    ∧ pv.sessions ≠ [] := by
  simp only [cleanupOldPageViewData] at h
  rw [List.mem_filterMap] at h
  obtain ⟨pv0, _, hmap⟩ := h
  simp only [cleanupPageView] at hmap
  split at hmap
  · exact absurd hmap (by simp)
  · rename_i hne
    rw [Option.some.injEq] at hmap
    subst hmap
    refine ⟨?_, hne⟩
    intro s hs
    have := List.mem_filter.mp hs
    simpa using this.2

/-- Witness for `cleanupOldPageViewData_retention`: a store holding one page
view with one session older than the 7-day cutoff and one newer; cleanup
keeps exactly the newer one. -/
theorem cleanupOldPageViewData_retention_witness :
    (⟨"https://a.com/x", "https://a.com/x", "a.com", none, none,
        [⟨2000000, 2004000, true⟩], 4, 5, 5⟩ : PageView) ∈
      cleanupOldPageViewData (7 * 86400000 + 1000000) 7
        [⟨"https://a.com/x", "https://a.com/x", "a.com", none, none,
          [⟨0, 1000, false⟩, ⟨2000000, 2004000, true⟩], 5, 5, 5⟩]
    ∧ ((∀ s ∈ (⟨"https://a.com/x", "https://a.com/x", "a.com", none, none,
          [⟨2000000, 2004000, true⟩], 4, 5, 5⟩ : PageView).sessions,
        (7 * 86400000 + 1000000 : Int) - 7 * 86400000 ≤ s.startTime)
      ∧ (⟨"https://a.com/x", "https://a.com/x", "a.com", none, none,
          [⟨2000000, 2004000, true⟩], 4, 5, 5⟩ : PageView).sessions ≠ []) := by
  have hmem : (⟨"https://a.com/x", "https://a.com/x", "a.com", none, none,
      [⟨2000000, 2004000, true⟩], 4, 5, 5⟩ : PageView) ∈
      cleanupOldPageViewData (7 * 86400000 + 1000000) 7
        [⟨"https://a.com/x", "https://a.com/x", "a.com", none, none,
          [⟨0, 1000, false⟩, ⟨2000000, 2004000, true⟩], 5, 5, 5⟩] := by
    simp only [cleanupOldPageViewData, cleanupPageView, List.filterMap_cons,
      List.filterMap_nil]
    norm_num [calculateTotalDuration, durationSec]
  exact ⟨hmem, cleanupOldPageViewData_retention _ _ _ _ hmem⟩

/-! ## C1: the sum invariant -/

/-- The invariant of the spec: `totalDuration` equals
`calculateTotalDuration(sessions)`. -/
def sumInvariant (pv : PageView) : Prop :=
  pv.totalDuration = calculateTotalDuration pv.sessions

theorem calculateTotalDuration_foldl_shift (l : List Session) (a : ℚ) :
    l.foldl (fun total s =>
      total + (if durationSec s > 0 then durationSec s else 0)) a =
    a + calculateTotalDuration l := by
  unfold calculateTotalDuration
  induction l generalizing a with
  | nil => simp
  | cons x t ih =>
    simp only [List.foldl_cons]
    rw [ih, ih (0 + _)]
    ring

theorem calculateTotalDuration_append_singleton (l : List Session) (s : Session) :
    calculateTotalDuration (l ++ [s]) =
      calculateTotalDuration l + (if durationSec s > 0 then durationSec s else 0) := by
  unfold calculateTotalDuration
  rw [List.foldl_append]
  simp only [List.foldl_cons, List.foldl_nil]

theorem calculateTotalDuration_singleton (s : Session) :
    calculateTotalDuration [s] = if durationSec s > 0 then durationSec s else 0 := by
  simp [calculateTotalDuration]

theorem findFirstIdx_lt_length (p : PageView → Bool) :
    ∀ (l : List PageView) (j : Nat), findFirstIdx p l = some j → j < l.length := by
  intro l
  induction l with
  | nil => intro j h; simp [findFirstIdx] at h
  | cons pv t ih =>
    intro j h
    simp only [findFirstIdx] at h
    split at h
    · rw [Option.some.injEq] at h
      subst h
      simp
    · rw [Option.map_eq_some'] at h
      obtain ⟨j0, hj0, rfl⟩ := h
      have := ih j0 hj0
      simp only [List.length_cons]
      omega

theorem getD_mem_of_lt {l : List PageView} {j : Nat} (h : j < l.length)
    (d : PageView) : l.getD j d ∈ l := by
  rw [List.getD_eq_getElem l d h]
  exact List.getElem_mem h

/-- The update step keeps the invariant (for a page view that satisfied it),
given the saved session survived the 0.5 s filter. -/
theorem updateExistingPageView_sumInvariant (pv : PageView) (s : Session)
    (now : Int) (t f : Option String)
    (hInv : sumInvariant pv) (hd : ¬ durationSec s < 1/2) :
    sumInvariant (updateExistingPageView pv s (durationSec s) now t f) := by
  unfold sumInvariant
  rw [updateExistingPageView_totalDuration, updateExistingPageView_sessions]
  by_cases hm : (tryMergeSession pv.sessions s).2 = true
  · rw [if_pos hm, if_pos hm]
  · rw [if_neg hm, if_neg hm]
    rw [calculateTotalDuration_append_singleton, hInv]
    have hpos : durationSec s > 0 := by
      push_neg at hd
      linarith
    rw [if_pos hpos]

/-- C1: every mutating store operation re-establishes the sum invariant —
`savePageViewSession` (page-view creation, session merge, session append),
`recalculatePageViewDuration`, retention cleanup
(`cleanupOldPageViewData`) and compaction (`optimizePageViewStorage`) each
map a store whose page views all satisfy
`totalDuration = calculateTotalDuration(sessions)` to a store whose page
views all still satisfy it. -/
theorem mutations_preserve_sumInvariant :
    (∀ (store : List PageView) (url : String) (session : Session)
        (fav title : Option String) (now : Int),
      (∀ pv ∈ store, sumInvariant pv) →
      ∀ pv ∈ savePageViewSession store url session fav title now, sumInvariant pv)
    ∧ (∀ (store : List PageView) (normalized : String),
      (∀ pv ∈ store, sumInvariant pv) →
      ∀ pv ∈ recalculatePageViewDuration store normalized, sumInvariant pv)
    ∧ (∀ (now maxAgeDays : Int) (store : List PageView),
      ∀ pv ∈ cleanupOldPageViewData now maxAgeDays store, sumInvariant pv)
    ∧ (∀ (now thresholdDays : Int) (store : List PageView),
      (∀ pv ∈ store, sumInvariant pv) →
      ∀ pv ∈ optimizePageViewStorage now thresholdDays store, sumInvariant pv) := by
  refine ⟨?_, ?_, ?_, ?_⟩
  · intro store url session fav title now hInv pv hmem
    unfold savePageViewSession at hmem
    cases hp : parseURL url with
    | none => simp only [hp] at hmem; exact hInv pv hmem
    | some u =>
      simp only [hp] at hmem
      by_cases hd : durationSec session < 1/2
      · rw [if_pos hd] at hmem
        exact hInv pv hmem
      · rw [if_neg hd] at hmem
        cases hfi : findFirstIdx (fun pv => pv.normalizedUrl == normalizeUrl url) store with
        | none =>
          simp only [hfi] at hmem
          rcases List.mem_append.mp hmem with h | h
          · exact hInv pv h
          · simp only [List.mem_singleton] at h
            subst h
            unfold sumInvariant createPageView
            rw [calculateTotalDuration_singleton]
            have hpos : durationSec session > 0 := by push_neg at hd; linarith
            simp [if_pos hpos]
        | some j =>
          simp only [hfi] at hmem
          rcases List.mem_or_eq_of_mem_set hmem with h | h
          · exact hInv pv h
          · subst h
            have hj := findFirstIdx_lt_length _ _ _ hfi
            exact updateExistingPageView_sumInvariant _ _ _ _ _
              (hInv _ (getD_mem_of_lt hj default)) hd
  · intro store normalized hInv pv hmem
    unfold recalculatePageViewDuration at hmem
    cases hfi : findFirstIdx (fun pv => pv.normalizedUrl == normalized) store with
    | none => simp only [hfi] at hmem; exact hInv pv hmem
    | some j =>
      simp only [hfi] at hmem
      rcases List.mem_or_eq_of_mem_set hmem with h | h
      · exact hInv pv h
      · subst h
        unfold sumInvariant
        rfl
  · intro now maxAgeDays store pv hmem
    simp only [cleanupOldPageViewData] at hmem
    rw [List.mem_filterMap] at hmem
    obtain ⟨pv0, _, hmap⟩ := hmem
    simp only [cleanupPageView] at hmap
    split at hmap
    · exact absurd hmap (by simp)
    · rw [Option.some.injEq] at hmap
      subst hmap
      unfold sumInvariant
      rfl
  · intro now thresholdDays store hInv pv hmem
    simp only [optimizePageViewStorage] at hmem
    rw [List.mem_map] at hmem
    obtain ⟨pv0, hpv0, hmap⟩ := hmem
    subst hmap
    simp only [optimizePageView]
    split
    · exact hInv pv0 hpv0
    · unfold sumInvariant
      rfl

/-- Witness for `mutations_preserve_sumInvariant`: creating a page view from
an empty store with a 2-second session yields a record satisfying the
invariant. -/
theorem mutations_preserve_sumInvariant_witness :
    (∀ pv ∈ ([] : List PageView), sumInvariant pv) ∧
    sumInvariant (createPageView "https://a.com/x"
      ⟨"https".toList, "a.com".toList, [], "/x".toList, [], []⟩
      ⟨1000, 3000, true⟩ 2 5000 none none) := by
  have hp : parseURL "https://a.com/x" =
      some ⟨"https".toList, "a.com".toList, [], "/x".toList, [], []⟩ := by decide
  have hd : durationSec ⟨1000, 3000, true⟩ = 2 := by norm_num [durationSec]
  have hsave : savePageViewSession [] "https://a.com/x" ⟨1000, 3000, true⟩ none none 5000 =
      [createPageView "https://a.com/x"
        ⟨"https".toList, "a.com".toList, [], "/x".toList, [], []⟩
        ⟨1000, 3000, true⟩ 2 5000 none none] := by
    simp only [savePageViewSession, hp, findFirstIdx, hd]
    rw [if_neg (by norm_num)]
    simp
  refine ⟨by simp, ?_⟩
  exact mutations_preserve_sumInvariant.1 [] "https://a.com/x" ⟨1000, 3000, true⟩
    none none 5000 (by simp) _ (by rw [hsave]; exact List.mem_singleton.mpr rfl)

/-! ## C3: fully-overlapped sessions -/

/-- `calculateTotalDuration` is unchanged when one session is replaced by a
session of equal duration. -/
theorem calculateTotalDuration_set_same_duration :
    ∀ (l : List Session) (i : Nat) (s : Session), i < l.length →
      durationSec s = durationSec (l.getD i default) →
      calculateTotalDuration (l.set i s) = calculateTotalDuration l := by
  intro l
  induction l with
  | nil => intro i s h; simp at h
  | cons x t ih =>
    intro i s hi hdur
    cases i with
    | zero =>
      simp only [List.getD_cons_zero] at hdur
      simp only [List.set_cons_zero]
      unfold calculateTotalDuration
      simp only [List.foldl_cons]
      rw [calculateTotalDuration_foldl_shift, calculateTotalDuration_foldl_shift, hdur]
    | succ i0 =>
      simp only [List.getD_cons_succ] at hdur
      simp only [List.set_cons_succ]
      unfold calculateTotalDuration
      simp only [List.foldl_cons]
      rw [calculateTotalDuration_foldl_shift, calculateTotalDuration_foldl_shift]
      rw [ih i0 s (by simpa using hi) hdur]

/-- Mapping a function over `set` changes nothing when the new value maps
equal to the old one. -/
theorem map_set_eq_of_eq (f : PageView → ℚ) :
    ∀ (l : List PageView) (j : Nat) (a : PageView), j < l.length →
      f a = f (l.getD j default) → (l.set j a).map f = l.map f := by
  intro l
  induction l with
  | nil => intro j a h; simp at h
  | cons x t ih =>
    intro j a hj hf
    cases j with
    | zero =>
      simp only [List.getD_cons_zero] at hf
      simp [hf]
    | succ j0 =>
      simp only [List.getD_cons_succ] at hf
      simp only [List.set_cons_succ, List.map_cons]
      rw [ih j0 a (by simpa using hj) hf]

/-- A session contained in the interval of the most recent session always
merges, and the merge does not change the session multiset's total
duration. -/
theorem tryMergeSession_contained (l : List Session) (n : Session)
    (hne : l ≠ [])
    (hstart : (mostRecentSessionOf l).startTime ≤ n.startTime)
    (hend : n.endTime ≤ (mostRecentSessionOf l).endTime)
    (hok : n.startTime ≤ n.endTime) :
    (tryMergeSession l n).2 = true ∧
    calculateTotalDuration (tryMergeSession l n).1 = calculateTotalDuration l := by
  cases l with
  | nil => exact absurd rfl hne
  | cons x t =>
    have hlt := mostRecentIdx_lt_length (x :: t) (by simp)
    simp only [mostRecentSessionOf] at hstart hend
    simp only [tryMergeSession]
    split
    · rename_i hc1
      constructor
      · rfl
      · apply calculateTotalDuration_set_same_duration _ _ _ hlt
        have hmax : max ((x :: t).getD (mostRecentIdx (x :: t)) default).endTime n.endTime =
            ((x :: t).getD (mostRecentIdx (x :: t)) default).endTime :=
          max_eq_left hend
        simp only [durationSec]
        rw [hmax]
    · rename_i hc1
      rw [if_pos ⟨le_trans hok hend, le_trans hstart hok⟩]
      constructor
      · rfl
      · apply calculateTotalDuration_set_same_duration _ _ _ hlt
        have hmax : max ((x :: t).getD (mostRecentIdx (x :: t)) default).endTime n.endTime =
            ((x :: t).getD (mostRecentIdx (x :: t)) default).endTime :=
          max_eq_left hend
        have hmin : min ((x :: t).getD (mostRecentIdx (x :: t)) default).startTime n.startTime =
            ((x :: t).getD (mostRecentIdx (x :: t)) default).startTime :=
          min_eq_left hstart
        simp only [durationSec]
        rw [hmax, hmin]

/-- C3 counterexample: a new 1-second session whose interval
`[1000 ms, 2000 ms]` is fully contained in the *first* stored session
`[0, 100000 ms]` of a page view whose *most recent* session is
`[200000 ms, 300000 ms]`.  All the claim's premises hold (containment in an
existing session, invariant store, session above the 0.5 s filter), yet
saving it appends a duplicate entry and raises `totalDuration` from 200 s
to 201 s — the fully-overlapped time IS double-counted. -/
theorem contained_session_double_count_counterexample :
    ((⟨0, 100000, false⟩ : Session) ∈
      (⟨"https://a.com/x", "https://a.com/x", "a.com", none, none,
        [⟨0, 100000, false⟩, ⟨200000, 300000, false⟩], 200, 0, 0⟩ : PageView).sessions
    ∧ (0 : Int) ≤ 1000 ∧ (2000 : Int) ≤ 100000 ∧ (1000 : Int) ≤ 2000
    ∧ sumInvariant ⟨"https://a.com/x", "https://a.com/x", "a.com", none, none,
        [⟨0, 100000, false⟩, ⟨200000, 300000, false⟩], 200, 0, 0⟩
    ∧ ¬ durationSec ⟨1000, 2000, false⟩ < 1/2)
    ∧ (savePageViewSession
        [⟨"https://a.com/x", "https://a.com/x", "a.com", none, none,
          [⟨0, 100000, false⟩, ⟨200000, 300000, false⟩], 200, 0, 0⟩]
        "https://a.com/x" ⟨1000, 2000, false⟩ none none 300000).map
          (fun pv => pv.totalDuration) = [201]
    ∧ ((201 : ℚ) ≠ 200) := by
  have hp : parseURL "https://a.com/x" =
      some ⟨"https".toList, "a.com".toList, [], "/x".toList, [], []⟩ := by decide
  have hd : durationSec ⟨1000, 2000, false⟩ = 1 := by norm_num [durationSec]
  have hm : tryMergeSession [⟨0, 100000, false⟩, ⟨200000, 300000, false⟩]
      ⟨1000, 2000, false⟩ = ([⟨0, 100000, false⟩, ⟨200000, 300000, false⟩], false) := by
    decide
  refine ⟨⟨by simp, by norm_num, by norm_num, by norm_num, ?_, by rw [hd]; norm_num⟩, ?_, by norm_num⟩
  · unfold sumInvariant
    norm_num [calculateTotalDuration, durationSec]
  · have hf : findFirstIdx
        (fun pv => pv.normalizedUrl == normalizeUrl "https://a.com/x")
        [⟨"https://a.com/x", "https://a.com/x", "a.com", none, none,
          [⟨0, 100000, false⟩, ⟨200000, 300000, false⟩], 200, 0, 0⟩] = some 0 := by
      decide
    simp only [savePageViewSession, hp, hd]
    rw [if_neg (by norm_num)]
    simp only [hf]
    simp only [List.getD_cons_zero, List.set_cons_zero, List.map_cons, List.map_nil]
    rw [updateExistingPageView_totalDuration]
    rw [hm]
    norm_num

/-- C3 amended: a new session whose interval is fully contained in the
interval of the page view's **most recent** session (the one with the
largest `endTime` — the only session `tryMergeSession` considers) is
absorbed by the merge, and saving it leaves every stored `totalDuration`
unchanged, provided the page view satisfied the sum invariant. -/
theorem contained_in_mostRecent_no_double_count
    (store : List PageView) (url : String) (n : Session)
    (fav title : Option String) (now : Int) (j : Nat)
    (hfi : findFirstIdx (fun pv => pv.normalizedUrl == normalizeUrl url) store = some j)
    (hInv : sumInvariant (store.getD j default))
    (hne : (store.getD j default).sessions ≠ [])
    (hstart : (mostRecentSessionOf (store.getD j default).sessions).startTime ≤ n.startTime)
    (hend : n.endTime ≤ (mostRecentSessionOf (store.getD j default).sessions).endTime)
    (hok : n.startTime ≤ n.endTime) :
    (savePageViewSession store url n fav title now).map (fun pv => pv.totalDuration)
      = store.map (fun pv => pv.totalDuration) := by
  unfold savePageViewSession
  cases hp : parseURL url with
  | none => simp [hp]
  | some u =>
    simp only [hp]
    by_cases hd : durationSec n < 1/2
    · rw [if_pos hd]
    · rw [if_neg hd]
      simp only [hfi]
      have hj := findFirstIdx_lt_length _ _ _ hfi
      obtain ⟨hm, hcalc⟩ := tryMergeSession_contained _ n hne hstart hend hok
      apply map_set_eq_of_eq _ _ _ _ hj
      rw [updateExistingPageView_totalDuration, if_pos hm, hcalc]
      exact hInv.symm

/-- Witness for `contained_in_mostRecent_no_double_count`: a 1-second
session inside the single (hence most recent) stored session of a one-page
store. -/
theorem contained_in_mostRecent_no_double_count_witness :
    (findFirstIdx (fun pv => pv.normalizedUrl == normalizeUrl "https://a.com/x")
        [⟨"https://a.com/x", "https://a.com/x", "a.com", none, none,
          [⟨0, 100000, false⟩], 100, 0, 0⟩] = some 0)
    ∧ sumInvariant (([⟨"https://a.com/x", "https://a.com/x", "a.com", none, none,
          [⟨0, 100000, false⟩], 100, 0, 0⟩] : List PageView).getD 0 default)
    ∧ (([⟨"https://a.com/x", "https://a.com/x", "a.com", none, none,
          [⟨0, 100000, false⟩], 100, 0, 0⟩] : List PageView).getD 0 default).sessions ≠ []
    ∧ (savePageViewSession
        [⟨"https://a.com/x", "https://a.com/x", "a.com", none, none,
          [⟨0, 100000, false⟩], 100, 0, 0⟩]
        "https://a.com/x" ⟨1000, 2000, true⟩ none none 777).map (fun pv => pv.totalDuration)
      = ([⟨"https://a.com/x", "https://a.com/x", "a.com", none, none,
          [⟨0, 100000, false⟩], 100, 0, 0⟩] : List PageView).map (fun pv => pv.totalDuration) := by
  have hfi : findFirstIdx (fun pv => pv.normalizedUrl == normalizeUrl "https://a.com/x")
      [⟨"https://a.com/x", "https://a.com/x", "a.com", none, none,
        [⟨0, 100000, false⟩], 100, 0, 0⟩] = some 0 := by decide
  have hInv : sumInvariant (([⟨"https://a.com/x", "https://a.com/x", "a.com", none, none,
      [⟨0, 100000, false⟩], 100, 0, 0⟩] : List PageView).getD 0 default) := by
    unfold sumInvariant
    norm_num [calculateTotalDuration, durationSec]
  exact ⟨hfi, hInv, by decide,
    contained_in_mostRecent_no_double_count _ "https://a.com/x" ⟨1000, 2000, true⟩
      none none 777 0 hfi hInv (by decide) (by decide) (by decide) (by decide)⟩

/-! ## C10: `deletePageView` matches the original `url` field

The key structural fact is that the storage-side `normalizeUrl` is
idempotent, so a stored `url` that differs from its own normalization can
never equal `normalizeUrl` of anything. -/

theorem mem_takeWhileB {α : Type} (p : α → Bool) :
    ∀ (l : List α) (a : α), a ∈ l.takeWhile p → p a = true ∧ a ∈ l := by
  intro l
  induction l with
  | nil => intro a h; simp at h
  | cons x t ih =>
    intro a h
    rw [List.takeWhile_cons] at h
    by_cases hx : p x = true
    · rw [if_pos hx] at h
      rcases List.mem_cons.mp h with rfl | h
      · exact ⟨hx, List.mem_cons_self _ _⟩
      · obtain ⟨h1, h2⟩ := ih a h
        exact ⟨h1, List.mem_cons_of_mem _ h2⟩
    · rw [if_neg hx] at h
      simp at h

theorem takeWhile_all_eq {α : Type} (p : α → Bool) :
    ∀ (l : List α), (∀ a ∈ l, p a = true) → l.takeWhile p = l := by
  intro l
  induction l with
  | nil => intro _; rfl
  | cons x t ih =>
    intro h
    rw [List.takeWhile_cons, if_pos (h x (List.mem_cons_self _ _))]
    rw [ih (fun a ha => h a (List.mem_cons_of_mem _ ha))]

theorem dropWhile_all_eq {α : Type} (p : α → Bool) :
    ∀ (l : List α), (∀ a ∈ l, p a = true) → l.dropWhile p = [] := by
  intro l
  induction l with
  | nil => intro _; rfl
  | cons x t ih =>
    intro h
    rw [List.dropWhile_cons, if_pos (h x (List.mem_cons_self _ _))]
    exact ih (fun a ha => h a (List.mem_cons_of_mem _ ha))

theorem takeWhile_append_of_all {α : Type} (p : α → Bool) :
    ∀ (xs ys : List α), (∀ a ∈ xs, p a = true) →
      (xs ++ ys).takeWhile p = xs ++ ys.takeWhile p := by
  intro xs
  induction xs with
  | nil => intro ys _; rfl
  | cons x t ih =>
    intro ys h
    rw [List.cons_append, List.takeWhile_cons, if_pos (h x (List.mem_cons_self _ _))]
    rw [ih ys (fun a ha => h a (List.mem_cons_of_mem _ ha)), List.cons_append]

theorem dropWhile_append_of_all {α : Type} (p : α → Bool) :
    ∀ (xs ys : List α), (∀ a ∈ xs, p a = true) →
      (xs ++ ys).dropWhile p = ys.dropWhile p := by
  intro xs
  induction xs with
  | nil => intro ys _; rfl
  | cons x t ih =>
    intro ys h
    rw [List.cons_append, List.dropWhile_cons, if_pos (h x (List.mem_cons_self _ _))]
    exact ih ys (fun a ha => h a (List.mem_cons_of_mem _ ha))

theorem takeWhile_eq_cons {α : Type} (p : α → Bool) :
    ∀ (l : List α) (c : α) (t : List α), l.takeWhile p = c :: t →
      p c = true ∧ ∃ t0, l = c :: t0 := by
  intro l c t h
  cases l with
  | nil => simp at h
  | cons x t0 =>
    rw [List.takeWhile_cons] at h
    by_cases hx : p x = true
    · rw [if_pos hx] at h
      injection h with h1 h2
      subst h1
      exact ⟨hx, t0, rfl⟩
    · rw [if_neg hx] at h
      simp at h

theorem dropWhile_eq_cons {α : Type} (p : α → Bool) :
    ∀ (l : List α) (c : α) (t : List α), l.dropWhile p = c :: t → p c = false := by
  intro l
  induction l with
  | nil => intro c t h; simp at h
  | cons x t0 ih =>
    intro c t h
    rw [List.dropWhile_cons] at h
    by_cases hx : p x = true
    · rw [if_pos hx] at h
      exact ih c t h
    · rw [if_neg hx] at h
      injection h with h1 h2
      subst h1
      exact Bool.not_eq_true _ ▸ hx

theorem splitScheme_append (ys : List Char) :
    ∀ (xs : List Char), (∀ c ∈ xs, c ≠ ':') →
      splitScheme (xs ++ ':' :: '/' :: '/' :: ys) = some (xs, ys) := by
  intro xs
  induction xs with
  | nil =>
    intro _
    simp [splitScheme]
  | cons x t ih =>
    intro h
    have hx : ¬ x = ':' := h x (List.mem_cons_self _ _)
    rw [List.cons_append]
    simp only [splitScheme, if_neg hx]
    rw [ih (fun c hc => h c (List.mem_cons_of_mem _ hc))]
    rfl

/-- Facts guaranteed about every successful parse: a nonempty well-formed
scheme, a nonempty hostname free of delimiter characters, and a pathname
that starts with `/` and contains neither `?` nor `#`. -/
theorem parseURL_some_facts {s : String} {u : URLParts} (h : parseURL s = some u) :
    (u.scheme ≠ [] ∧ ∀ c ∈ u.scheme, isSchemeChar c = true)
    ∧ (u.hostname ≠ [] ∧ ∀ c ∈ u.hostname, c ≠ ':' ∧ c ≠ '/' ∧ c ≠ '?' ∧ c ≠ '#')
    ∧ ((∃ t, u.pathname = '/' :: t) ∧ ∀ c ∈ u.pathname, c ≠ '?' ∧ c ≠ '#') := by
  unfold parseURL at h
  cases hsp : splitScheme s.toList with
  | none => rw [hsp] at h; exact absurd h (by simp)
  | some p =>
    obtain ⟨scheme, rest⟩ := p
    simp only [hsp] at h
    by_cases h1 : scheme = []
    · rw [if_pos h1] at h; exact absurd h (by simp)
    · rw [if_neg h1] at h
      by_cases h2 : ¬ (scheme.all isSchemeChar = true)
      · rw [if_pos h2] at h; exact absurd h (by simp)
      · rw [if_neg h2] at h
        by_cases h3 : (rest.takeWhile (fun c => !(c == '/' || c == '?' || c == '#'))).takeWhile
            (fun c => !(c == ':')) = []
        · rw [if_pos h3] at h; exact absurd h (by simp)
        · rw [if_neg h3] at h
          rw [Option.some.injEq] at h
          subst h
          refine ⟨⟨h1, ?_⟩, ⟨h3, ?_⟩, ?_⟩
          · exact fun c hc => List.all_eq_true.mp (of_not_not h2) c hc
          · intro c hc
            obtain ⟨hcolon, hc2⟩ := mem_takeWhileB _ _ c hc
            obtain ⟨hother, -⟩ := mem_takeWhileB _ _ c hc2
            refine ⟨by simpa using hcolon, ?_, ?_, ?_⟩ <;>
              · intro he
                subst he
                simp at hother
          · by_cases h4 : (rest.dropWhile (fun c => !(c == '/' || c == '?' || c == '#'))).takeWhile
                (fun c => !(c == '?' || c == '#')) = []
            · rw [if_pos h4]
              refine ⟨⟨[], rfl⟩, ?_⟩
              show ∀ c ∈ (['/'] : List Char), c ≠ '?' ∧ c ≠ '#'
              decide
            · rw [if_neg h4]
              obtain ⟨c, t, hct⟩ := List.exists_cons_of_ne_nil h4
              obtain ⟨hc3, t0, ht0⟩ := takeWhile_eq_cons _ _ _ _ hct
              have hc1 : (fun c => !(c == '/' || c == '?' || c == '#')) c = false :=
                dropWhile_eq_cons (fun c => !(c == '/' || c == '?' || c == '#')) rest c t0 ht0
              have hcslash : c = '/' := by
                simp only [Bool.not_eq_false', Bool.or_eq_true, beq_iff_eq] at hc1
                simp only [Bool.not_eq_eq_eq_not, Bool.not_true, Bool.or_eq_false_iff,
                  beq_eq_false_iff_ne] at hc3
                tauto
              refine ⟨⟨t, hcslash ▸ hct⟩, ?_⟩
              intro a ha
              obtain ⟨hpa, -⟩ := mem_takeWhileB _ _ a ha
              constructor <;>
                · intro he
                  subst he
                  simp at hpa

/-- A string of the exact shape produced by the storage-side `normalizeUrl`
parses back to its own components (no port, no search, no hash). -/
theorem parseURL_reparse (u : URLParts)
    (hs1 : u.scheme ≠ []) (hs2 : ∀ c ∈ u.scheme, isSchemeChar c = true)
    (hh1 : u.hostname ≠ [])
    (hh2 : ∀ c ∈ u.hostname, c ≠ ':' ∧ c ≠ '/' ∧ c ≠ '?' ∧ c ≠ '#')
    (hp1 : ∃ t, u.pathname = '/' :: t)
    (hp2 : ∀ c ∈ u.pathname, c ≠ '?' ∧ c ≠ '#') :
    parseURL (String.mk (u.scheme ++ ':' :: '/' :: '/' :: (u.hostname ++ u.pathname))) =
      some ⟨u.scheme, u.hostname, [], u.pathname, [], []⟩ := by
  obtain ⟨tp, hpath⟩ := hp1
  have hnc : ∀ c ∈ u.scheme, c ≠ ':' := by
    intro c hc heq
    have hx := hs2 c hc
    rw [heq] at hx
    exact absurd hx (by decide)
  have hall1 : ∀ c ∈ u.hostname, (fun c => !(c == '/' || c == '?' || c == '#')) c = true := by
    intro c hc
    obtain ⟨-, d1, d2, d3⟩ := hh2 c hc
    simp [d1, d2, d3]
  have hall2 : ∀ c ∈ u.hostname, (fun c => !(c == ':')) c = true := by
    intro c hc
    obtain ⟨d0, -, -, -⟩ := hh2 c hc
    simp [d0]
  have hall3 : ∀ c ∈ u.pathname, (fun c => !(c == '?' || c == '#')) c = true := by
    intro c hc
    obtain ⟨d1, d2⟩ := hp2 c hc
    simp [d1, d2]
  have hA : (u.hostname ++ u.pathname).takeWhile
      (fun c => !(c == '/' || c == '?' || c == '#')) = u.hostname := by
    rw [takeWhile_append_of_all _ _ _ hall1, hpath, List.takeWhile_cons,
      if_neg (by decide), List.append_nil]
  have hB : (u.hostname ++ u.pathname).dropWhile
      (fun c => !(c == '/' || c == '?' || c == '#')) = u.pathname := by
    rw [dropWhile_append_of_all _ _ _ hall1, hpath, List.dropWhile_cons,
      if_neg (by decide)]
  have hC : u.hostname.takeWhile (fun c => !(c == ':')) = u.hostname :=
    takeWhile_all_eq _ _ hall2
  have hD : u.hostname.dropWhile (fun c => !(c == ':')) = [] :=
    dropWhile_all_eq _ _ hall2
  have hE : u.pathname.takeWhile (fun c => !(c == '?' || c == '#')) = u.pathname :=
    takeWhile_all_eq _ _ hall3
  have hF : u.pathname.dropWhile (fun c => !(c == '?' || c == '#')) = [] :=
    dropWhile_all_eq _ _ hall3
  have hG : u.pathname ≠ [] := by rw [hpath]; simp
  have htl : (String.mk (u.scheme ++ ':' :: '/' :: '/' :: (u.hostname ++ u.pathname))).toList
      = u.scheme ++ ':' :: '/' :: '/' :: (u.hostname ++ u.pathname) := rfl
  unfold parseURL
  rw [htl, splitScheme_append _ _ hnc]
  dsimp only
  rw [if_neg hs1, if_neg (not_not_intro (List.all_eq_true.mpr hs2))]
  rw [hA, hB, hC, hD, hE, hF]
  rw [if_neg hh1, if_neg hG]
  simp

/-- The storage-side `normalizeUrl` is idempotent. -/
theorem normalizeUrl_idem (s : String) :
    normalizeUrl (normalizeUrl s) = normalizeUrl s := by
  cases hp : parseURL s with
  | none => simp [normalizeUrl, hp]
  | some u =>
    obtain ⟨⟨hs1, hs2⟩, ⟨hh1, hh2⟩, ⟨hp1, hp2⟩⟩ := parseURL_some_facts hp
    have h1 : normalizeUrl s =
        String.mk (u.scheme ++ ':' :: '/' :: '/' :: (u.hostname ++ u.pathname)) := by
      simp [normalizeUrl, hp]
    rw [h1]
    simp [normalizeUrl, parseURL_reparse u hs1 hs2 hh1 hh2 hp1 hp2]

/-- C10: `deletePageView` filters on the record's original `url` field
against the normalized argument, so (i) it removes exactly the page views
whose stored original `url` equals `normalizeUrl url`; (ii) a page view
whose stored `url` differs from its own `normalizedUrl` field (a record
whose raw URL carried a query string, fragment or port) survives every
`deletePageView` call; and (iii) in contrast `deletePageViewData` filters
on the `normalizedUrl` field. -/
theorem deletePageView_matches_original_url :
    (∀ (url : String) (store : List PageView) (pv : PageView),
      pv ∈ deletePageView url store ↔ pv ∈ store ∧ pv.url ≠ normalizeUrl url)
    ∧ (∀ (url : String) (store : List PageView) (pv : PageView),
      pv ∈ store → pv.normalizedUrl = normalizeUrl pv.url → pv.url ≠ pv.normalizedUrl →
      pv ∈ deletePageView url store)
    ∧ (∀ (url : String) (store : List PageView) (pv : PageView),
      pv ∈ deletePageViewData url store ↔ pv ∈ store ∧ pv.normalizedUrl ≠ normalizeUrl url) := by
  have hiff : ∀ (url : String) (store : List PageView) (pv : PageView),
      pv ∈ deletePageView url store ↔ pv ∈ store ∧ pv.url ≠ normalizeUrl url := by
    intro url store pv
    unfold deletePageView
    rw [List.mem_filter]
    simp
  refine ⟨hiff, ?_, ?_⟩
  · intro url store pv hmem hwf hdiff
    rw [hiff]
    refine ⟨hmem, ?_⟩
    intro hcontra
    apply hdiff
    rw [hwf, hcontra, normalizeUrl_idem]
  · intro url store pv
    unfold deletePageViewData
    rw [List.mem_filter]
    simp

/-- Witness for `deletePageView_matches_original_url`: a page view recorded
with a query string survives `deletePageView` of an unrelated URL, while
`deletePageViewData` of the page's own URL removes it. -/
theorem deletePageView_matches_original_url_witness :
    ((⟨"https://a.com/x?q=1", "https://a.com/x", "a.com", none, none, [], 0, 0, 0⟩ : PageView)
        ∈ [(⟨"https://a.com/x?q=1", "https://a.com/x", "a.com", none, none, [], 0, 0, 0⟩ : PageView)])
    ∧ (⟨"https://a.com/x?q=1", "https://a.com/x", "a.com", none, none, [], 0, 0, 0⟩ : PageView).normalizedUrl
        = normalizeUrl (⟨"https://a.com/x?q=1", "https://a.com/x", "a.com", none, none, [], 0, 0, 0⟩ : PageView).url
    ∧ (⟨"https://a.com/x?q=1", "https://a.com/x", "a.com", none, none, [], 0, 0, 0⟩ : PageView).url
        ≠ (⟨"https://a.com/x?q=1", "https://a.com/x", "a.com", none, none, [], 0, 0, 0⟩ : PageView).normalizedUrl
    ∧ (⟨"https://a.com/x?q=1", "https://a.com/x", "a.com", none, none, [], 0, 0, 0⟩ : PageView)
        ∈ deletePageView "https://a.com/x?q=1"
          [(⟨"https://a.com/x?q=1", "https://a.com/x", "a.com", none, none, [], 0, 0, 0⟩ : PageView)]
    ∧ deletePageViewData "https://a.com/x?q=1"
          [(⟨"https://a.com/x?q=1", "https://a.com/x", "a.com", none, none, [], 0, 0, 0⟩ : PageView)]
        = [] := by
  have hwf : (⟨"https://a.com/x?q=1", "https://a.com/x", "a.com", none, none, [], 0, 0, 0⟩ : PageView).normalizedUrl
      = normalizeUrl (⟨"https://a.com/x?q=1", "https://a.com/x", "a.com", none, none, [], 0, 0, 0⟩ : PageView).url := by
    decide
  have hdiff : (⟨"https://a.com/x?q=1", "https://a.com/x", "a.com", none, none, [], 0, 0, 0⟩ : PageView).url
      ≠ (⟨"https://a.com/x?q=1", "https://a.com/x", "a.com", none, none, [], 0, 0, 0⟩ : PageView).normalizedUrl := by
    decide
  refine ⟨List.mem_singleton.mpr rfl, hwf, hdiff, ?_, by decide⟩
  exact deletePageView_matches_original_url.2.1 "https://a.com/x?q=1" _ _
    (List.mem_singleton.mpr rfl) hwf hdiff
